import Mathlib

/-!
Verification of the country population guessing game (`main.py`).

The Python source is shallowly embedded below.  Effects are made explicit:

* Randomness (`random.choice`, `random.randint(0, 1)`) is modelled by an
  explicit list of natural-number draws (`List Nat`); each draw is the head
  of the list (`headD 0`), the remaining stream is its tail.  `choice(xs)`
  picks index `draw % xs.length`.
* Unbounded recursion / `while` loops are modelled with an explicit fuel
  argument; a result of `none` for every fuel value means the source
  program diverges on those inputs.
* The filesystem (cache file, program file mtime) and the HTTP response
  are passed in and returned explicitly.
* Console input is an explicit list of strings.
-/

namespace CountryGame

/-- `Country` dataclass from `main.py`: `name : str`, `population : int`
(non-negative per the data model).  Python dataclass equality is by value. -/
structure Country where
  name : String
  population : Nat
deriving DecidableEq, Repr

/-- `UserScore` dataclass from `main.py`. -/
structure UserScore where
  username : String
  score : Nat
deriving DecidableEq, Repr

/-- `check_user_guess` from `main.py` (lines 124-142), with Python's
`and`/`or` precedence made explicit:
`(guess == "1" and p1 >= p2) or (guess != "1" and p2 >= p1)`. -/
def check_user_guess (country1 country2 : Country) (user_guess : String) : Bool :=
  if (user_guess = "1" ∧ country1.population ≥ country2.population)
      ∨ (user_guess ≠ "1" ∧ country2.population ≥ country1.population) then
    true
  else
    false

/-- `random.choice(cat)` given one random draw `r`: the element at index
`r % cat.length` (the fallback for the empty list is never reached when
the list is non-empty). -/
def pick (cat : List Country) (r : Nat) : Country :=
  cat.getD (r % cat.length) (Country.mk "" 0)

/-- The `if country_i is None: country_i = choice(...)` step of
`set_countries`: resolve an optional country, consuming one random draw
exactly when it is `none`.  Returns the country and the remaining draws. -/
def resolve (oc : Option Country) (cat : List Country) (rs : List Nat) :
    Country × List Nat :=
  match oc with
  | none => (pick cat (rs.headD 0), rs.tail)
  | some c => (c, rs)

/-- One pass of steps 1-3 of `set_countries` (lines 108-117): resolve the
two optional countries, then flip a coin (`randint(0, 1)`) and re-roll
exactly one side.  Returns the produced pair and the remaining draws. -/
def rollOnce (oc1 oc2 : Option Country) (cat : List Country) (rs : List Nat) :
    Country × Country × List Nat :=
  let r1 := resolve oc1 cat rs
  let r2 := resolve oc2 cat r1.2
  let coin := r2.2.headD 0
  let rs3 := r2.2.tail
  if coin % 2 = 0 then (pick cat (rs3.headD 0), r2.1, rs3.tail)
  else (r1.1, pick cat (rs3.headD 0), rs3.tail)

/-- `set_countries` from `main.py` (lines 93-122), fuel-indexed: roll a
pair; if the two countries are equal by value, recurse on the just-produced
pair, otherwise return it.  `none` for every fuel value models divergence
of the unbounded Python recursion. -/
def set_countries :
    Nat → Option Country → Option Country → List Country → List Nat →
    Option (Country × Country × List Nat)
  | 0, _, _, _, _ => none
  | fuel + 1, oc1, oc2, cat, rs =>
    let q := rollOnce oc1 oc2 cat rs
    if q.1 = q.2.1 then set_countries fuel (some q.1) (some q.2.1) cat q.2.2
    else some q

/-- The `while user_guess not in ["1", "2"]` prompt loop of `game_loop`
(lines 166-171): skip console inputs until one is in `valid`; return it and
the remaining inputs, or `none` when the input stream is exhausted. -/
def getValidInput (valid : List String) : List String → Option (String × List String)
  | [] => none
  | i :: rest =>
    if valid.contains i then some (i, rest) else getValidInput valid rest

/-- `str.lower()`: lowercase a string character by character (the
character-level form of `String.toLower`). -/
def lower (s : String) : String :=
  String.mk (s.data.map Char.toLower)

/-- The `while play_again not in ["y", "n"]` prompt loop of `game_loop`
(lines 184-187): like `getValidInput` but each input is lowercased first
(`input(...).lower()`). -/
def getValidLower (valid : List String) : List String → Option (String × List String)
  | [] => none
  | i :: rest =>
    if valid.contains (lower i) then some (lower i, rest)
    else getValidLower valid rest

/-- `game_loop` from `main.py` (lines 144-196), fuel-indexed.  Each round:
select a pair with `set_countries`, read the first valid guess, evaluate it.
On a correct guess the score is incremented and the continue prompt is read
(`"n"` ends the game returning the incremented score, `"y"` loops); on an
incorrect guess the loop breaks immediately, returning the current score.
`score` is the accumulator (`score = 0` at the call site in `main`). -/
def game_loop :
    Nat → Option Country → Option Country → List Country → List Nat →
    List String → Nat → Option Nat
  | 0, _, _, _, _, _, _ => none
  | fuel + 1, oc1, oc2, cat, rs, ins, score =>
    match set_countries (fuel + 1) oc1 oc2 cat rs with
    | none => none
    | some (c1, c2, rs2) =>
      match getValidInput ["1", "2"] ins with
      | none => none
      | some (g, ins1) =>
        if check_user_guess c1 c2 g then
          match getValidLower ["y", "n"] ins1 with
          | none => none
          | some (pa, ins2) =>
            if pa = "n" then some (score + 1)
            else game_loop fuel (some c1) (some c2) cat rs2 ins2 (score + 1)
        else
          some score

/-- Specification-level companion of `game_loop`: the list of evaluated
guess outcomes (`true` = correct) of a run, computed from the same inputs
with the same control structure but without the score accumulator.  Used to
state that the returned score counts the correct guesses. -/
def guessResults :
    Nat → Option Country → Option Country → List Country → List Nat →
    List String → Option (List Bool)
  | 0, _, _, _, _, _ => none
  | fuel + 1, oc1, oc2, cat, rs, ins =>
    match set_countries (fuel + 1) oc1 oc2 cat rs with
    | none => none
    | some (c1, c2, rs2) =>
      match getValidInput ["1", "2"] ins with
      | none => none
      | some (g, ins1) =>
        if check_user_guess c1 c2 g then
          match getValidLower ["y", "n"] ins1 with
          | none => none
          | some (pa, ins2) =>
            if pa = "n" then some [true]
            else (guessResults fuel (some c1) (some c2) cat rs2 ins2).map
              (fun bs => true :: bs)
        else
          some [false]

/-- The filesystem state seen by the data source adapter: whether the cache
file `country_information.json` exists, its mtime, the program file's mtime
(both in seconds, as `os.path.getmtime` returns), and the cache content.
Writing the cache is modelled by updating `cacheExists`/`cacheContent`
(the mtime update on write plays no role in the claims about one call). -/
structure Fs where
  cacheExists : Bool
  cacheMtime : Int
  progMtime : Int
  cacheContent : String
deriving DecidableEq, Repr

/-- An HTTP response as seen by `make_country_request`: status code and raw
body text (`request.text`; `request.json()` is modelled as the body itself,
since parsing is not at issue in the claims). -/
structure HttpResponse where
  status : Nat
  text : String
deriving DecidableEq, Repr

/-- `make_country_request` from `main.py` (lines 37-50): unconditionally
write the raw body to the cache file, then return the parsed body when the
status is 200 and `None` otherwise.  Returns (result, new filesystem). -/
def make_country_request (resp : HttpResponse) (fs : Fs) : Option String × Fs :=
  ((if resp.status = 200 then some resp.text else none),
    Fs.mk true fs.cacheMtime fs.progMtime resp.text)

/-- `get_country_information` from `main.py` (lines 54-71): live fetch when
the cache file does not exist or its mtime is older than the program file's
mtime minus 86400 seconds; otherwise read the cache file.  The extra `Bool`
records whether the HTTP request was performed. -/
def get_country_information (resp : HttpResponse) (fs : Fs) :
    (Option String × Fs) × Bool :=
  if fs.cacheExists = false ∨ fs.cacheMtime < fs.progMtime - 86400 then
    (make_country_request resp fs, true)
  else
    ((some fs.cacheContent, fs), false)

/-- Insert a row into a list sorted by score descending, keeping earlier
(storage-order) rows first among ties: the row goes after every row with a
score ≥ its own. -/
def insertScoreDesc (u : UserScore) : List UserScore → List UserScore
  | [] => [u]
  | v :: vs =>
    if u.score ≤ v.score then v :: insertScoreDesc u vs else u :: v :: vs

/-- `ORDER BY score DESC` over the stored rows, as a stable insertion sort
(SQLite leaves the tie order unspecified; storage order is one refinement). -/
def sortByScoreDesc : List UserScore → List UserScore
  | [] => []
  | u :: us => insertScoreDesc u (sortByScoreDesc us)

/-- `get_top_scores` from `main.py` (lines 243-264): the table rows ordered
by score descending, limited by `LIMIT amount`.  In SQLite a negative
`LIMIT` imposes no limit, so the `take` applies only when `0 ≤ amount`. -/
def get_top_scores (amount : Int) (table : List UserScore) : List UserScore :=
  let sorted := sortByScoreDesc table
  if amount < 0 then sorted else sorted.take amount.toNat

/-- Scores of a returned row list are non-increasing (ordered by score
descending). -/
def scoresNonIncreasing (l : List UserScore) : Prop :=
  l.Pairwise (fun a b => b.score ≤ a.score)

/-! ## Helper lemmas about the score store -/

/-- Membership in `insertScoreDesc`. -/
theorem mem_insertScoreDesc {u v : UserScore} :
    ∀ {l : List UserScore}, v ∈ insertScoreDesc u l ↔ v = u ∨ v ∈ l := by
  intro l
  induction l with
  | nil => simp [insertScoreDesc]
  | cons w ws ih =>
    simp only [insertScoreDesc]
    split
    · simp only [List.mem_cons, ih]
      tauto
    · simp only [List.mem_cons]

/-- `insertScoreDesc` preserves the non-increasing order. -/
theorem scoresNonIncreasing_insertScoreDesc {u : UserScore} :
    ∀ {l : List UserScore}, scoresNonIncreasing l →
      scoresNonIncreasing (insertScoreDesc u l) := by
  intro l
  induction l with
  | nil =>
    intro _
    simp [insertScoreDesc, scoresNonIncreasing]
  | cons v vs ih =>
    intro h
    rcases List.pairwise_cons.mp h with ⟨hv, hvs⟩
    simp only [insertScoreDesc]
    split
    case isTrue hle =>
      refine List.pairwise_cons.mpr ⟨?_, ih hvs⟩
      intro b hb
      rcases mem_insertScoreDesc.mp hb with rfl | hb2
      · exact hle
      · exact hv b hb2
    case isFalse hgt =>
      refine List.pairwise_cons.mpr ⟨?_, h⟩
      intro b hb
      rcases List.mem_cons.mp hb with rfl | hb2
      · exact le_of_lt (not_le.mp hgt)
      · exact le_trans (hv b hb2) (le_of_lt (not_le.mp hgt))

/-- The sorted row list has non-increasing scores. -/
theorem scoresNonIncreasing_sortByScoreDesc (l : List UserScore) :
    scoresNonIncreasing (sortByScoreDesc l) := by
  induction l with
  | nil => simp [sortByScoreDesc, scoresNonIncreasing]
  | cons u us ih => exact scoresNonIncreasing_insertScoreDesc ih

/-- `insertScoreDesc` is a permutation of consing. -/
theorem perm_insertScoreDesc (u : UserScore) :
    ∀ (l : List UserScore), List.Perm (insertScoreDesc u l) (u :: l) := by
  intro l
  induction l with
  | nil => exact List.Perm.refl _
  | cons v vs ih =>
    simp only [insertScoreDesc]
    split
    · exact (List.Perm.cons v ih).trans (List.Perm.swap u v vs)
    · exact List.Perm.refl _

/-- Sorting permutes the table. -/
theorem perm_sortByScoreDesc :
    ∀ (l : List UserScore), List.Perm (sortByScoreDesc l) l := by
  intro l
  induction l with
  | nil => exact List.Perm.refl _
  | cons u us ih =>
    exact (perm_insertScoreDesc u (sortByScoreDesc us)).trans (List.Perm.cons u ih)

/-! ## Helper lemmas about the round selector -/

/-- A random pick from a non-empty catalog is a member of the catalog. -/
theorem pick_mem {cat : List Country} (r : Nat) (h : cat ≠ []) :
    pick cat r ∈ cat := by
  have hl : 0 < cat.length := List.length_pos.mpr h
  have hm : r % cat.length < cat.length := Nat.mod_lt _ hl
  rw [pick, List.getD_eq_getElem _ _ hm]
  exact List.getElem_mem hm

/-- Resolving an optional previous country that is absent or in the catalog
yields a catalog member. -/
theorem resolve_mem {oc : Option Country} {cat : List Country} {rs : List Nat}
    (h : cat ≠ []) (hok : oc = none ∨ ∃ c, oc = some c ∧ c ∈ cat) :
    (resolve oc cat rs).1 ∈ cat := by
  rcases hok with rfl | ⟨c, rfl, hc⟩
  · exact pick_mem _ h
  · exact hc

/-- Both countries produced by one roll are catalog members. -/
theorem rollOnce_mem {oc1 oc2 : Option Country} {cat : List Country} {rs : List Nat}
    (h : cat ≠ [])
    (h1 : oc1 = none ∨ ∃ c, oc1 = some c ∧ c ∈ cat)
    (h2 : oc2 = none ∨ ∃ c, oc2 = some c ∧ c ∈ cat) :
    (rollOnce oc1 oc2 cat rs).1 ∈ cat ∧ (rollOnce oc1 oc2 cat rs).2.1 ∈ cat := by
  simp only [rollOnce]
  split
  · exact ⟨pick_mem _ h, resolve_mem h h2⟩
  · exact ⟨resolve_mem h h1, pick_mem _ h⟩

/-- Whatever `set_countries` returns, the two countries differ by value. -/
theorem set_countries_ne :
    ∀ (fuel : Nat) (oc1 oc2 : Option Country) (cat : List Country) (rs : List Nat)
      (a b : Country) (rs2 : List Nat),
      set_countries fuel oc1 oc2 cat rs = some (a, b, rs2) → a ≠ b := by
  intro fuel
  induction fuel with
  | zero =>
    intro oc1 oc2 cat rs a b rs2 hres
    cases hres
  | succ n ih =>
    intro oc1 oc2 cat rs a b rs2 hres
    simp only [set_countries] at hres
    by_cases heq : (rollOnce oc1 oc2 cat rs).1 = (rollOnce oc1 oc2 cat rs).2.1
    · rw [if_pos heq] at hres
      exact ih _ _ _ _ _ _ _ hres
    · rw [if_neg heq] at hres
      have h2 := Option.some.inj hres
      intro hab
      apply heq
      rw [h2]
      exact hab

/-- A pick rewritten through a known in-bounds index. -/
theorem pick_eq_getElem {cat : List Country} {n : Nat} (hn : n < cat.length) :
    pick cat n = cat[n] := by
  rw [pick, Nat.mod_eq_of_lt hn, List.getD_eq_getElem _ _ hn]

/-- If the catalog holds two countries that differ by value, some sequence
of random draws makes `set_countries` terminate in one roll. -/
theorem set_countries_reaches {cat : List Country} {x y : Country}
    (hx : x ∈ cat) (hy : y ∈ cat) (hxy : x ≠ y) :
    ∃ (fuel : Nat) (rs : List Nat) (c d : Country) (rs2 : List Nat),
      set_countries fuel none none cat rs = some (c, d, rs2) ∧ c ≠ d := by
  obtain ⟨i, hi, rfl⟩ := List.mem_iff_getElem.mp hx
  obtain ⟨j, hj, rfl⟩ := List.mem_iff_getElem.mp hy
  refine ⟨1, [i, j, 1, j], cat[i], cat[j], [], ?_, hxy⟩
  simp only [set_countries, rollOnce, resolve, List.headD_cons, List.tail_cons]
  norm_num
  rw [pick_eq_getElem hi, pick_eq_getElem hj]
  exact ⟨hxy, rfl, rfl⟩

/-- Every pick from a two-copy catalog is that one country. -/
theorem pick_pair_same (a : Country) (r : Nat) : pick [a, a] r = a := by
  show [a, a].getD (r % 2) (Country.mk "" 0) = a
  rcases Nat.mod_two_eq_zero_or_one r with h | h <;> rw [h] <;> rfl

/-- Resolving over a two-copy catalog yields that one country. -/
theorem resolve_pair_same {a : Country} {oc : Option Country} {rs : List Nat}
    (h : oc = none ∨ oc = some a) : (resolve oc [a, a] rs).1 = a := by
  rcases h with rfl | rfl
  · exact pick_pair_same a _
  · rfl

/-- One roll over a two-copy catalog yields the equal pair. -/
theorem rollOnce_pair_same {a : Country} {oc1 oc2 : Option Country} {rs : List Nat}
    (h1 : oc1 = none ∨ oc1 = some a) (h2 : oc2 = none ∨ oc2 = some a) :
    (rollOnce oc1 oc2 [a, a] rs).1 = a ∧ (rollOnce oc1 oc2 [a, a] rs).2.1 = a := by
  simp only [rollOnce]
  split
  · exact ⟨pick_pair_same a _, resolve_pair_same h2⟩
  · exact ⟨resolve_pair_same h1, pick_pair_same a _⟩

/-- On a catalog of two equal countries, `set_countries` never returns, for
every fuel and every random stream: the source recursion diverges. -/
theorem set_countries_pair_same (a : Country) :
    ∀ (fuel : Nat) (oc1 oc2 : Option Country) (rs : List Nat),
      (oc1 = none ∨ oc1 = some a) → (oc2 = none ∨ oc2 = some a) →
      set_countries fuel oc1 oc2 [a, a] rs = none := by
  intro fuel
  induction fuel with
  | zero =>
    intro oc1 oc2 rs _ _
    rfl
  | succ n ih =>
    intro oc1 oc2 rs h1 h2
    have hq := @rollOnce_pair_same a oc1 oc2 rs h1 h2
    simp only [set_countries]
    rw [if_pos (hq.1.trans hq.2.symm)]
    exact ih _ _ _ (Or.inr (congrArg some hq.1)) (Or.inr (congrArg some hq.2))

/-! ## Theorems for the claims -/

/-- Claim C1: for every pair of countries and every guess in {"1", "2"},
`check_user_guess` returns true iff (guess = "1" and pop c1 ≥ pop c2) or
(guess = "2" and pop c2 ≥ pop c1); in particular equal populations make
both guesses correct, and pop c1 > pop c2 makes guess "1" correct and
guess "2" incorrect. -/
theorem C1_guess_evaluator :
    (∀ (c1 c2 : Country) (g : String), g = "1" ∨ g = "2" →
      (check_user_guess c1 c2 g = true ↔
        (g = "1" ∧ c2.population ≤ c1.population) ∨
        (g = "2" ∧ c1.population ≤ c2.population))) ∧
    (∀ c1 c2 : Country, c1.population = c2.population →
      check_user_guess c1 c2 "1" = true ∧ check_user_guess c1 c2 "2" = true) ∧
    (∀ c1 c2 : Country, c2.population < c1.population →
      check_user_guess c1 c2 "1" = true ∧ check_user_guess c1 c2 "2" = false) := by
  refine ⟨?_, ?_, ?_⟩
  · intro c1 c2 g hg
    rcases hg with rfl | rfl <;> simp [check_user_guess]
  · intro c1 c2 h
    constructor <;> simp [check_user_guess] <;> omega
  · intro c1 c2 h
    constructor <;> simp [check_user_guess] <;> omega

/-- Witness for C1 at concrete countries: the USA/Canada scenario from the
spec, plus a tie. -/
theorem C1_guess_evaluator_witness :
    (check_user_guess (Country.mk "USA" 331000000) (Country.mk "Canada" 38000000) "1" = true ↔
      ("1" = "1" ∧ (38000000 : Nat) ≤ 331000000) ∨
      ("1" = "2" ∧ (331000000 : Nat) ≤ 38000000)) ∧
    (check_user_guess (Country.mk "T" 5) (Country.mk "U" 5) "1" = true ∧
      check_user_guess (Country.mk "T" 5) (Country.mk "U" 5) "2" = true) ∧
    (check_user_guess (Country.mk "USA" 331000000) (Country.mk "Canada" 38000000) "1" = true ∧
      check_user_guess (Country.mk "USA" 331000000) (Country.mk "Canada" 38000000) "2" = false) :=
  ⟨C1_guess_evaluator.1 _ _ "1" (Or.inl rfl),
    C1_guess_evaluator.2.1 _ _ rfl,
    C1_guess_evaluator.2.2 _ _ (by norm_num)⟩

/-- Claim C8: any guess string other than "1" (for example "x" or "") is
treated as a choice of the second country: `check_user_guess` returns
`pop c2 ≥ pop c1`. -/
theorem C8_non_one_guess :
    ∀ (c1 c2 : Country) (g : String), g ≠ "1" →
      (check_user_guess c1 c2 g = true ↔ c1.population ≤ c2.population) := by
  intro c1 c2 g hg
  simp [check_user_guess, hg]

/-- Witness for C8 at guess "x" and at the empty guess. -/
theorem C8_non_one_guess_witness :
    (check_user_guess (Country.mk "A" 1) (Country.mk "B" 2) "x" = true ↔
      (1 : Nat) ≤ 2) ∧
    (check_user_guess (Country.mk "A" 1) (Country.mk "B" 2) "" = true ↔
      (1 : Nat) ≤ 2) :=
  ⟨C8_non_one_guess _ _ "x" (by decide), C8_non_one_guess _ _ "" (by decide)⟩

/-- Claim C5: a live fetch whose response status is not 200 returns `None`
(no exception is modelled: the function is total, and there is no retry -
`make_country_request` performs exactly one request). -/
theorem C5_non_200_returns_none :
    ∀ (resp : HttpResponse) (fs : Fs), resp.status ≠ 200 →
      (make_country_request resp fs).1 = none := by
  intro resp fs h
  simp [make_country_request, h]

/-- Witness for C5 at a 404 response. -/
theorem C5_non_200_returns_none_witness :
    (make_country_request (HttpResponse.mk 404 "not found") (Fs.mk true 0 0 "old")).1 =
      none :=
  C5_non_200_returns_none _ _ (by decide)

/-- Claim C6: every live fetch overwrites the cache file with the raw
response body, for every HTTP status code; and whenever
`get_country_information` performs the live fetch (whatever the freshness
check decided), the resulting cache content is the raw body. -/
theorem C6_live_fetch_writes_cache :
    ∀ (resp : HttpResponse) (fs : Fs),
      ((make_country_request resp fs).2.cacheContent = resp.text ∧
        (make_country_request resp fs).2.cacheExists = true) ∧
      ((get_country_information resp fs).2 = true →
        ((get_country_information resp fs).1.2).cacheContent = resp.text) := by
  intro resp fs
  refine ⟨⟨rfl, rfl⟩, ?_⟩
  simp only [get_country_information]
  split <;> simp [make_country_request]

/-- Witness for C6: a stale cache and a non-200 response still get the body
written. -/
theorem C6_live_fetch_writes_cache_witness :
    ((make_country_request (HttpResponse.mk 500 "fresh") (Fs.mk false 0 0 "old")).2.cacheContent =
        "fresh" ∧
      (make_country_request (HttpResponse.mk 500 "fresh") (Fs.mk false 0 0 "old")).2.cacheExists =
        true) ∧
    ((get_country_information (HttpResponse.mk 500 "fresh") (Fs.mk false 0 0 "old")).1.2).cacheContent =
      "fresh" :=
  ⟨(C6_live_fetch_writes_cache _ _).1, (C6_live_fetch_writes_cache _ _).2 rfl⟩

/-- Counterexample for C4: at the exact boundary (cache mtime equal to
program mtime minus 24h) the code reads the cache although the mtime is not
strictly newer than the threshold, so "reads the cache iff the mtime is
newer than program mtime − 24h" fails at this input. -/
theorem C4_cache_freshness_counterexample :
    ¬ (((get_country_information (HttpResponse.mk 200 "body") (Fs.mk true 0 86400 "cached")).2 =
          false) ↔
        ((Fs.mk true 0 86400 "cached").cacheExists = true ∧
          (Fs.mk true 0 86400 "cached").cacheMtime >
            (Fs.mk true 0 86400 "cached").progMtime - 86400)) := by
  decide

/-- Claim C4, amended: the adapter reads and parses the cache file
(performing no HTTP request, leaving the filesystem unchanged, returning
the cache content) if and only if the cache file exists and its
modification time is at least (not strictly newer than) the program file's
modification time minus 24 hours; otherwise it performs the live fetch. -/
theorem C4_cache_freshness_amended :
    ∀ (resp : HttpResponse) (fs : Fs),
      ((get_country_information resp fs).2 = false ↔
        (fs.cacheExists = true ∧ fs.progMtime - 86400 ≤ fs.cacheMtime)) ∧
      ((get_country_information resp fs).2 = false →
        (get_country_information resp fs).1.1 = some fs.cacheContent ∧
        (get_country_information resp fs).1.2 = fs) := by
  intro resp fs
  by_cases hc : fs.cacheExists = false ∨ fs.cacheMtime < fs.progMtime - 86400
  · rw [get_country_information, if_pos hc]
    refine ⟨?_, by simp⟩
    refine iff_of_false (by simp) ?_
    rintro ⟨h1, h2⟩
    rcases hc with hc | hc
    · rw [h1] at hc
      cases hc
    · omega
  · rw [get_country_information, if_neg hc]
    push_neg at hc
    refine ⟨?_, fun _ => ⟨rfl, rfl⟩⟩
    simp only [true_iff]
    exact ⟨eq_true_of_ne_false hc.1, hc.2⟩

/-- Witness for C4 at a fresh cache. -/
theorem C4_cache_freshness_amended_witness :
    ((get_country_information (HttpResponse.mk 200 "body") (Fs.mk true 100 86400 "cached")).2 =
        false ↔
      ((Fs.mk true 100 86400 "cached").cacheExists = true ∧
        (86400 : Int) - 86400 ≤ 100)) ∧
    ((get_country_information (HttpResponse.mk 200 "body") (Fs.mk true 100 86400 "cached")).1.1 =
        some "cached" ∧
      (get_country_information (HttpResponse.mk 200 "body") (Fs.mk true 100 86400 "cached")).1.2 =
        Fs.mk true 100 86400 "cached") :=
  ⟨(C4_cache_freshness_amended _ _).1, (C4_cache_freshness_amended _ _).2 rfl⟩

/-- Counterexample for C7: at the negative amount −1 with a one-row table
the query returns one row, so "at most n rows" fails for n = −1 (SQLite's
`LIMIT` with a negative value imposes no limit). -/
theorem C7_top_scores_counterexample :
    ¬ (((get_top_scores (-1) [UserScore.mk "ABC" 5]).length : Int) ≤ -1) := by
  decide

/-- Claim C7, amended: for every amount n ≥ 0 the top-scores query returns
at most n rows, and for every amount (negative included) the returned
scores are non-increasing. -/
theorem C7_top_scores_amended :
    ∀ (amount : Int) (table : List UserScore),
      (0 ≤ amount → ((get_top_scores amount table).length : Int) ≤ amount) ∧
      scoresNonIncreasing (get_top_scores amount table) := by
  intro amount table
  constructor
  · intro h0
    rw [get_top_scores, if_neg (not_lt.mpr h0)]
    have hlen : ((sortByScoreDesc table).take amount.toNat).length ≤ amount.toNat := by
      rw [List.length_take]
      exact min_le_left _ _
    calc (((sortByScoreDesc table).take amount.toNat).length : Int)
        ≤ (amount.toNat : Int) := by exact_mod_cast hlen
      _ = amount := Int.toNat_of_nonneg h0
  · rw [get_top_scores]
    split
    · exact scoresNonIncreasing_sortByScoreDesc table
    · exact List.Pairwise.sublist (List.take_sublist _ _)
        (scoresNonIncreasing_sortByScoreDesc table)

/-- Witness for C7 at amount 2 over a three-row table. -/
theorem C7_top_scores_amended_witness :
    ((get_top_scores 2 [UserScore.mk "AAA" 1, UserScore.mk "BBB" 7,
        UserScore.mk "CCC" 3]).length : Int) ≤ 2 ∧
    scoresNonIncreasing (get_top_scores 2 [UserScore.mk "AAA" 1,
      UserScore.mk "BBB" 7, UserScore.mk "CCC" 3]) :=
  ⟨(C7_top_scores_amended 2 _).1 (by norm_num), (C7_top_scores_amended 2 _).2⟩

/-- Claim C10: for every negative amount the top-scores query returns every
row of the store (as a permutation of the table), since SQLite's `LIMIT`
with a negative value imposes no limit. -/
theorem C10_negative_limit :
    ∀ (amount : Int) (table : List UserScore), amount < 0 →
      List.Perm (get_top_scores amount table) table := by
  intro amount table h
  rw [get_top_scores, if_pos h]
  exact perm_sortByScoreDesc table

/-- Witness for C10 at amount −2. -/
theorem C10_negative_limit_witness :
    List.Perm (get_top_scores (-2) [UserScore.mk "AAA" 1, UserScore.mk "BBB" 7])
      [UserScore.mk "AAA" 1, UserScore.mk "BBB" 7] :=
  C10_negative_limit (-2) _ (by norm_num)

/-- Counterexample for C2: the catalog `[A, A]` has size 2, yet
`set_countries` never returns on it — for every fuel bound and every
random stream the model yields `none`, i.e. the source recursion diverges.
So "for every catalog of size at least 2 the round selector terminates"
is false. -/
theorem C2_round_selector_counterexample :
    [Country.mk "A" 1, Country.mk "A" 1].length = 2 ∧
    ¬ ∃ (fuel : Nat) (rs : List Nat) (out : Country × Country × List Nat),
      set_countries fuel none none [Country.mk "A" 1, Country.mk "A" 1] rs =
        some out := by
  refine ⟨rfl, ?_⟩
  rintro ⟨fuel, rs, out, h⟩
  rw [set_countries_pair_same (Country.mk "A" 1) fuel none none rs
    (Or.inl rfl) (Or.inl rfl)] at h
  cases h

/-- Claim C2, amended: whenever the round selector returns, the pair is
unequal by value (for every catalog, previous pair and random stream); and
for every catalog containing two countries unequal by value some sequence
of random draws makes it terminate.  Unconditional termination fails: a
size-2 catalog whose entries are equal by value never terminates. -/
theorem C2_round_selector_amended :
    (∀ (fuel : Nat) (oc1 oc2 : Option Country) (cat : List Country)
        (rs : List Nat) (a b : Country) (rs2 : List Nat),
      set_countries fuel oc1 oc2 cat rs = some (a, b, rs2) → a ≠ b) ∧
    (∀ (cat : List Country) (x y : Country), x ∈ cat → y ∈ cat → x ≠ y →
      ∃ (fuel : Nat) (rs : List Nat) (c d : Country) (rs2 : List Nat),
        set_countries fuel none none cat rs = some (c, d, rs2) ∧ c ≠ d) :=
  ⟨set_countries_ne, fun _ _ _ hx hy hxy => set_countries_reaches hx hy hxy⟩

/-- Witness for C2 on the two-country catalog `[A, B]`. -/
theorem C2_round_selector_amended_witness :
    Country.mk "A" 1 ≠ Country.mk "B" 2 ∧
    ∃ (fuel : Nat) (rs : List Nat) (c d : Country) (rs2 : List Nat),
      set_countries fuel none none [Country.mk "A" 1, Country.mk "B" 2] rs =
        some (c, d, rs2) ∧ c ≠ d :=
  ⟨C2_round_selector_amended.1 1 none none [Country.mk "A" 1, Country.mk "B" 2]
      [0, 1, 1, 1] _ _ [] (by decide),
    C2_round_selector_amended.2 _ (Country.mk "A" 1) (Country.mk "B" 2)
      (by decide) (by decide) (by decide)⟩

/-- Claim C9: for a non-empty catalog and previous countries each absent or
in the catalog, both countries returned by the round selector are catalog
members. -/
theorem C9_selector_membership :
    ∀ (fuel : Nat) (oc1 oc2 : Option Country) (cat : List Country)
      (rs : List Nat) (a b : Country) (rs2 : List Nat),
      cat ≠ [] →
      (oc1 = none ∨ ∃ c, oc1 = some c ∧ c ∈ cat) →
      (oc2 = none ∨ ∃ c, oc2 = some c ∧ c ∈ cat) →
      set_countries fuel oc1 oc2 cat rs = some (a, b, rs2) →
      a ∈ cat ∧ b ∈ cat := by
  intro fuel
  induction fuel with
  | zero =>
    intro oc1 oc2 cat rs a b rs2 _ _ _ hres
    cases hres
  | succ n ih =>
    intro oc1 oc2 cat rs a b rs2 hcat h1 h2 hres
    have hq := @rollOnce_mem oc1 oc2 cat rs hcat h1 h2
    simp only [set_countries] at hres
    by_cases heq : (rollOnce oc1 oc2 cat rs).1 = (rollOnce oc1 oc2 cat rs).2.1
    · rw [if_pos heq] at hres
      exact ih _ _ _ _ _ _ _ hcat (Or.inr ⟨_, rfl, hq.1⟩) (Or.inr ⟨_, rfl, hq.2⟩) hres
    · rw [if_neg heq] at hres
      have hout := Option.some.inj hres
      constructor
      · have ha : (rollOnce oc1 oc2 cat rs).1 = a := by rw [hout]
        exact ha ▸ hq.1
      · have hb : (rollOnce oc1 oc2 cat rs).2.1 = b := by rw [hout]
        exact hb ▸ hq.2

/-- Witness for C9 on the catalog `[A, B]` with both previous countries
absent. -/
theorem C9_selector_membership_witness :
    Country.mk "A" 1 ∈ [Country.mk "A" 1, Country.mk "B" 2] ∧
    Country.mk "B" 2 ∈ [Country.mk "A" 1, Country.mk "B" 2] :=
  C9_selector_membership 1 none none [Country.mk "A" 1, Country.mk "B" 2]
    [0, 1, 1, 1] _ _ [] (by decide) (Or.inl rfl) (Or.inl rfl) (by decide)

/-- Claim C3: (1) whenever the round's guess evaluates as incorrect, the
game loop returns the score accumulated so far immediately — for every
remainder of the input stream, so no continue prompt is consumed; with
score 4 this returns 4 (see the witness).  (2) Whenever the loop returns a
score, it exceeds the initial accumulator by exactly the number of `true`
entries in the evaluated-guess trace, so with the initial accumulator 0 of
`main` the returned score is the number of correct guesses. -/
theorem C3_game_loop :
    (∀ (fuel : Nat) (oc1 oc2 : Option Country) (cat : List Country)
        (rs : List Nat) (ins : List String) (score : Nat) (c1 c2 : Country)
        (rs2 : List Nat) (g : String) (ins1 : List String),
      set_countries (fuel + 1) oc1 oc2 cat rs = some (c1, c2, rs2) →
      getValidInput ["1", "2"] ins = some (g, ins1) →
      check_user_guess c1 c2 g = false →
      game_loop (fuel + 1) oc1 oc2 cat rs ins score = some score) ∧
    (∀ (fuel : Nat) (oc1 oc2 : Option Country) (cat : List Country)
        (rs : List Nat) (ins : List String) (score s : Nat),
      game_loop fuel oc1 oc2 cat rs ins score = some s →
      ∃ bs, guessResults fuel oc1 oc2 cat rs ins = some bs ∧
        s = score + bs.count true) := by
  constructor
  · intro fuel oc1 oc2 cat rs ins score c1 c2 rs2 g ins1 hset hin hchk
    simp only [game_loop, hset, hin]
    rw [if_neg (by simp [hchk])]
  · intro fuel
    induction fuel with
    | zero =>
      intro oc1 oc2 cat rs ins score s h
      cases h
    | succ n ih =>
      intro oc1 oc2 cat rs ins score s h
      simp only [game_loop] at h
      simp only [guessResults]
      cases hset : set_countries (n + 1) oc1 oc2 cat rs with
      | none =>
        rw [hset] at h
        cases h
      | some t =>
        obtain ⟨c1, c2, rs2⟩ := t
        simp only [hset] at h
        simp only [hset]
        cases hin : getValidInput ["1", "2"] ins with
        | none =>
          rw [hin] at h
          cases h
        | some p =>
          obtain ⟨g, ins1⟩ := p
          simp only [hin] at h
          simp only [hin]
          by_cases hchk : check_user_guess c1 c2 g = true
          · rw [if_pos hchk] at h
            rw [if_pos hchk]
            cases hpa : getValidLower ["y", "n"] ins1 with
            | none =>
              rw [hpa] at h
              cases h
            | some q =>
              obtain ⟨pa, ins2⟩ := q
              simp only [hpa] at h
              simp only [hpa]
              by_cases hn : pa = "n"
              · rw [if_pos hn] at h
                rw [if_pos hn]
                have hs := Option.some.inj h
                refine ⟨[true], rfl, ?_⟩
                simp only [List.count_cons_self, List.count_nil]
                omega
              · rw [if_neg hn] at h
                rw [if_neg hn]
                obtain ⟨bs, hbs, hcount⟩ := ih _ _ _ _ _ _ _ h
                refine ⟨true :: bs, ?_, ?_⟩
                · rw [hbs]
                  rfl
                · rw [List.count_cons_self]
                  omega
          · rw [if_neg hchk] at h
            rw [if_neg hchk]
            have hs := Option.some.inj h
            refine ⟨[false], rfl, ?_⟩
            have h0 : [false].count true = 0 := by decide
            omega

/-- Witness for C3: a first wrong guess at score 4 returns 4 (the smaller
country is offered as guess "1" and guessed), and a two-correct-guess run
from score 0 returns 2, matching its trace. -/
theorem C3_game_loop_witness :
    game_loop 1 none none [Country.mk "A" 1, Country.mk "B" 2] [0, 1, 1, 1]
      ["1"] 4 = some 4 ∧
    ∃ bs, guessResults 5 none none [Country.mk "A" 1, Country.mk "B" 2]
        [0, 1, 1, 1, 0, 1, 1, 1] ["2", "Y", "x", "2", "n"] = some bs ∧
      2 = 0 + bs.count true :=
  ⟨C3_game_loop.1 0 none none [Country.mk "A" 1, Country.mk "B" 2] [0, 1, 1, 1]
      ["1"] 4 (Country.mk "A" 1) (Country.mk "B" 2) [] "1" []
      (by decide) (by decide) (by decide),
    C3_game_loop.2 5 none none [Country.mk "A" 1, Country.mk "B" 2]
      [0, 1, 1, 1, 0, 1, 1, 1] ["2", "Y", "x", "2", "n"] 0 2 (by decide)⟩

end CountryGame
